import Mathlib

/-!
Shallow embedding of the init2winit kitchen-sink gradient transforms
(`optimizer_lib/kitchen_sink/_src/transform.py`) and optimizer utilities
(`optimizer_lib/utils.py`).

Modelling conventions:
* a parameter tree is modelled at a single rank-1 leaf, i.e. a `List ℚ` of
  scalars; `jax.tree_map` over congruent trees becomes `List.zipWith`;
* machine `int32` counters are modelled as `Int` with explicit
  two's-complement reduction `% 2 ^ 32` where the code performs int32
  addition;
* the external floating-point kernels `jnp.sqrt` and `jnp.power` are threaded
  as explicit function arguments `sq : ℚ → ℚ` and `rp : ℚ → ℚ → ℚ`; all other
  arithmetic is exact rational arithmetic.
-/

namespace KitchenSink

/-- Maximum representable int32 value, `jnp.iinfo(jnp.int32).max`. -/
def int32Max : Int := 2 ^ 31 - 1

/-- Minimum representable int32 value. -/
def int32Min : Int := -(2 ^ 31)

/-- Two's-complement reduction of an integer into int32 range. -/
def wrap32 (x : Int) : Int := (x + 2 ^ 31) % 2 ^ 32 - 2 ^ 31

/-- `count + jnp.array(1, dtype=jnp.int32)`: plain int32 addition, which
wraps around at `int32Max`. -/
def i32add1 (c : Int) : Int := wrap32 (c + 1)

/-- `_safe_int32_increment`:
`jnp.where(count < max_int32_value, count + one, max_int32_value)`. -/
def _safe_int32_increment (count : Int) : Int :=
  if count < int32Max then count + 1 else int32Max

/-- `_update_moment`: leafwise `(1 - decay) * (g ** order) + decay * t`. -/
def _update_moment (updates moments : List ℚ) (decay : ℚ) (order : ℕ) :
    List ℚ :=
  List.zipWith (fun g t => (1 - decay) * g ^ order + decay * t)
    updates moments

/-- `_bias_correction`: leafwise `t / (1 - decay ** count)`. -/
def _bias_correction (moment : List ℚ) (decay : ℚ) (count : Int) : List ℚ :=
  moment.map (fun t => t / (1 - decay ^ count.toNat))

/-- `jnp.sign` on a rational scalar. -/
def qsign (x : ℚ) : ℚ := if 0 < x then 1 else if x < 0 then -1 else 0

/-- `raise_power = jnp.sqrt if power == 0.5 else lambda x: jnp.power(x, power)`,
with the two external kernels passed in as `sq` and `rp`. -/
def raise_power (sq : ℚ → ℚ) (rp : ℚ → ℚ → ℚ) (power : ℚ) : ℚ → ℚ :=
  if power = 1 / 2 then sq else fun x => rp x power

/-- `PreconditionBySecondMomentCoordinateWiseState` (count, nu). -/
structure PreconditionBySecondMomentCoordinateWiseState where
  count : Int
  nu : List ℚ
  deriving DecidableEq, Repr

/-- `precondition_by_rms.init_fn`: zero count, `nu` zeros like params. -/
def precondition_by_rms_init (params : List ℚ) :
    PreconditionBySecondMomentCoordinateWiseState :=
  { count := 0, nu := params.map (fun _ => 0) }

/-- `precondition_by_rms.update_fn`. -/
def precondition_by_rms_update (sq : ℚ → ℚ) (rp : ℚ → ℚ → ℚ)
    (decay eps eps_root : ℚ) (debias : Bool) (power : ℚ)
    (updates : List ℚ) (state : PreconditionBySecondMomentCoordinateWiseState) :
    List ℚ × PreconditionBySecondMomentCoordinateWiseState :=
  let nu := _update_moment updates state.nu decay 2
  let count := i32add1 state.count
  let nu_hat := if debias then _bias_correction nu decay count else nu
  let updates' := List.zipWith
    (fun u v => u / (raise_power sq rp power (v + eps_root) + eps))
    updates nu_hat
  (updates', { count := count, nu := nu })

/-- `precondition_by_yogi.init_fn`: `nu` filled with
`initial_accumulator_value`. -/
def precondition_by_yogi_init (initial_accumulator_value : ℚ)
    (params : List ℚ) : PreconditionBySecondMomentCoordinateWiseState :=
  { count := 0, nu := params.map (fun _ => initial_accumulator_value) }

/-- `precondition_by_yogi.update_fn`:
`nu = v - (1 - b2) * sign(v - g²) * g²` leafwise. -/
def precondition_by_yogi_update (sq : ℚ → ℚ) (b2 eps eps_root : ℚ)
    (debias : Bool) (updates : List ℚ)
    (state : PreconditionBySecondMomentCoordinateWiseState) :
    List ℚ × PreconditionBySecondMomentCoordinateWiseState :=
  let nu := List.zipWith
    (fun g v => v - (1 - b2) * qsign (v - g ^ 2) * g ^ 2) updates state.nu
  let count := i32add1 state.count
  let nu_hat := if debias then _bias_correction nu b2 count else nu
  let updates' := List.zipWith
    (fun u v => u / (sq (v + eps_root) + eps)) updates nu_hat
  (updates', { count := count, nu := nu })

/-- `precondition_by_amsgrad.init_fn`. -/
def precondition_by_amsgrad_init (params : List ℚ) :
    PreconditionBySecondMomentCoordinateWiseState :=
  { count := 0, nu := params.map (fun _ => 0) }

/-- `precondition_by_amsgrad.update_fn`: `nu_hat = max(nu, previous nu)`
leafwise. -/
def precondition_by_amsgrad_update (sq : ℚ → ℚ) (b2 eps eps_root : ℚ)
    (updates : List ℚ)
    (state : PreconditionBySecondMomentCoordinateWiseState) :
    List ℚ × PreconditionBySecondMomentCoordinateWiseState :=
  let nu := _update_moment updates state.nu b2 2
  let count := i32add1 state.count
  let nu_hat := List.zipWith max nu state.nu
  let updates' := List.zipWith
    (fun m v => m / (sq (v + eps_root) + eps)) updates nu_hat
  (updates', { count := count, nu := nu })

/-- `BiasCorrectionState` (count only). -/
structure BiasCorrectionState where
  count : Int
  deriving DecidableEq, Repr

/-- `bias_correction.init_fn`. -/
def bias_correction_init : BiasCorrectionState := { count := 0 }

/-- `bias_correction.update_fn`: uses `_safe_int32_increment`. -/
def bias_correction_update (decay : ℚ) (updates : List ℚ)
    (state : BiasCorrectionState) : List ℚ × BiasCorrectionState :=
  let count_inc := _safe_int32_increment state.count
  let new_vals := _bias_correction updates decay count_inc
  (new_vals, { count := count_inc })

/-- `ScaleByAdamState` (count, mu, nu). -/
structure ScaleByAdamState where
  count : Int
  mu : List ℚ
  nu : List ℚ
  deriving DecidableEq, Repr

/-- `scale_by_adam.init_fn`. -/
def scale_by_adam_init (params : List ℚ) : ScaleByAdamState :=
  { count := 0
    mu := params.map (fun _ => 0)
    nu := params.map (fun _ => 0) }

/-- `scale_by_adam.update_fn`. -/
def scale_by_adam_update (sq : ℚ → ℚ) (rp : ℚ → ℚ → ℚ)
    (b1 b2 eps eps_root : ℚ) (debias : Bool) (power : ℚ)
    (updates : List ℚ) (state : ScaleByAdamState) :
    List ℚ × ScaleByAdamState :=
  let mu := _update_moment updates state.mu b1 1
  let nu := _update_moment updates state.nu b2 2
  let count := i32add1 state.count
  let mu_hat := if debias then _bias_correction mu b1 count else mu
  let nu_hat := if debias then _bias_correction nu b2 count else nu
  let updates' := List.zipWith
    (fun m v => m / (raise_power sq rp power (v + eps_root) + eps))
    mu_hat nu_hat
  (updates', { count := count, mu := mu, nu := nu })

/-- `scale_by_nadam.init_fn`. -/
def scale_by_nadam_init (params : List ℚ) : ScaleByAdamState :=
  { count := 0
    mu := params.map (fun _ => 0)
    nu := params.map (fun _ => 0) }

/-- `scale_by_nadam.update_fn`: recomputes `mu_hat` by a second moment
update that folds the current gradient in, then bias-corrects. -/
def scale_by_nadam_update (sq : ℚ → ℚ) (rp : ℚ → ℚ → ℚ)
    (b1 b2 eps eps_root : ℚ) (debias : Bool) (power : ℚ)
    (updates : List ℚ) (state : ScaleByAdamState) :
    List ℚ × ScaleByAdamState :=
  let mu := _update_moment updates state.mu b1 1
  let nu := _update_moment updates state.nu b2 2
  let count := i32add1 state.count
  let mu_hat₀ := _update_moment updates mu b1 1
  let mu_hat := if debias then _bias_correction mu_hat₀ b1 count else mu_hat₀
  let nu_hat := if debias then _bias_correction nu b2 count else nu
  let updates' := List.zipWith
    (fun m v => m / (raise_power sq rp power (v + eps_root) + eps))
    mu_hat nu_hat
  (updates', { count := count, mu := mu, nu := nu })

/-- Three-way zip, modelling `jax.tree_map` over three congruent leaves. -/
def zipWith3 (f : ℚ → ℚ → ℚ → ℚ) : List ℚ → List ℚ → List ℚ → List ℚ
  | a :: as, b :: bs, c :: cs => f a b c :: zipWith3 f as bs cs
  | _, _, _ => []

/-- `jnp.repeat(vals, reps)`: repeat `vals[i]` `reps[i]` times, concatenated
in order.  Negative repeat counts (an error in numpy) are clamped by
`Int.toNat`. -/
def npRepeat (vals : List ℚ) (reps : List Int) : List ℚ :=
  ((vals.zip reps).map (fun p => List.replicate p.2.toNat p.1)).flatten

/-- The local `multiples` of `_generate_partition`:
`jnp.int32(jnp.floor(decay_distribution * length))`. -/
def partition_multiples (decay_distribution : List ℚ) (length : ℕ) :
    List Int :=
  decay_distribution.map (fun d => ⌊d * (length : ℚ)⌋)

/-- The rounding correction of `_generate_partition`:
`multiples.at[-1].set(multiples[-1] + length - jnp.sum(multiples))`. -/
def partition_corrected (decay_distribution : List ℚ) (length : ℕ) :
    List Int :=
  let multiples := partition_multiples decay_distribution length
  multiples.set (multiples.length - 1)
    (multiples.getLastD 0 + length - multiples.sum)

/-- `_generate_partition`: `multiples[i] = floor(decay_distribution[i] * length)`,
the last entry is corrected by the shortfall `length - sum(multiples)`, and
`decays` is repeated accordingly. -/
def _generate_partition (decays decay_distribution : List ℚ) (length : ℕ) :
    List ℚ :=
  npRepeat decays (partition_corrected decay_distribution length)

/-- `PreconditionByLayeredAdaptiveRMSState` (count, nu, beta_array,
scale_array). -/
structure PreconditionByLayeredAdaptiveRMSState where
  count : Int
  nu : List ℚ
  beta_array : List ℚ
  scale_array : List ℚ
  deriving DecidableEq, Repr

/-- `precondition_by_layered_adaptive_rms.init_fn` at a rank-1 parameter
leaf: for a 1-D tensor input and output index are both 0, `array_len` is the
leaf's length under either modality, and the broadcasting reshape is the
identity, so `_generate_per_parameter_array` reduces to
`_generate_partition` over the leaf's length. -/
def precondition_by_layered_adaptive_rms_init
    (decays scales decay_distribution : List ℚ) (params : List ℚ) :
    PreconditionByLayeredAdaptiveRMSState :=
  { count := 0
    nu := params.map (fun _ => 0)
    beta_array := _generate_partition decays decay_distribution params.length
    scale_array := _generate_partition scales decay_distribution
      params.length }

/-- `_update_moment_general`: `one_minus_beta` is forced to 1 when
`1 - beta ≤ 0` (the adagrad-like case). -/
def _update_moment_general (g t beta : ℚ) (order : ℕ) : ℚ :=
  let one_minus_beta := 1 - beta
  let one_minus_beta' :=
    if one_minus_beta ≤ 0 then 1 else one_minus_beta
  one_minus_beta' * g ^ order + beta * t

/-- `precondition_by_layered_adaptive_rms.update_fn`. -/
def precondition_by_layered_adaptive_rms_update (sq : ℚ → ℚ)
    (eps eps_root : ℚ) (updates : List ℚ)
    (state : PreconditionByLayeredAdaptiveRMSState) :
    List ℚ × PreconditionByLayeredAdaptiveRMSState :=
  let nu := zipWith3 (fun g t b => _update_moment_general g t b 2)
    updates state.nu state.beta_array
  let count := i32add1 state.count
  let updates' := zipWith3
    (fun m v s => s * (m / (sq (v + eps_root) + eps)))
    updates nu state.scale_array
  (updates', { count := count, nu := nu
               beta_array := state.beta_array
               scale_array := state.scale_array })

/-- Extended float scalar distinguishing finite values from `nan` and the
infinities, for `_sanitize_values`. -/
inductive EFloat where
  | fin : ℚ → EFloat
  | nan : EFloat
  | posinf : EFloat
  | neginf : EFloat
  deriving DecidableEq, Repr

/-- `_sanitize_values` on a scalar: `jnp.nan_to_num` with `replacement` for
`nan`, `posinf` and `neginf`. -/
def _sanitize_values (x : EFloat) (replacement : ℚ) : ℚ :=
  match x with
  | .fin q => q
  | _ => replacement

/-- `_reduce_mean`: both branches of the source (plain mean, and the nested
partial sums used for > 1e8 elements) compute `sum / size` in exact
arithmetic. -/
def _reduce_mean (array : List ℚ) : ℚ :=
  array.sum / (array.length : ℚ)

/-- `_reduce_rms`: `sqrt(mean(array ** 2))` with the external `sqrt`
kernel `sq`. -/
def _reduce_rms (sq : ℚ → ℚ) (array : List ℚ) : ℚ :=
  sq (_reduce_mean (array.map (fun x => x ^ 2)))

/-- `_clip_update`: the rms is sanitized (replacement 1.0), the divisor is
`max(1, rms / clip_threshold)`. -/
def _clip_update (sq : ℚ → ℚ) (update : List ℚ) (clip_threshold : ℚ) :
    List ℚ :=
  let mean_update := _sanitize_values (.fin (_reduce_rms sq update)) 1
  let denom := max 1 (mean_update / clip_threshold)
  update.map (fun x => x / denom)

/-- `optax.NO_PARAMS_MSG`, the message raised when a transform that needs
`params` receives none. -/
def NO_PARAMS_MSG : String :=
  "You are using a transformation that requires the current value of parameters, but you are not passing `params` when calling `update`."

/-- `add_decayed_weights.update_fn`: raises when `params is None`, else adds
`m * learning_rate * weight_decay * p` leafwise with `m = -1` when
`flip_sign` and returns the empty state unchanged. -/
def add_decayed_weights_update (weight_decay learning_rate : ℚ)
    (flip_sign : Bool) (updates : List ℚ) (state : Unit)
    (params : Option (List ℚ)) : Except String (List ℚ × Unit) :=
  let m : ℚ := if flip_sign then -1 else 1
  match params with
  | none => .error NO_PARAMS_MSG
  | some p =>
      .ok (List.zipWith
        (fun g pv => g + m * learning_rate * weight_decay * pv) updates p,
        state)

end KitchenSink

namespace OptimizerUtils

/-- A Python value as seen by `extract_field`: `None`, a numeric leaf, a
dict (a non-tuple container), a plain tuple, or a namedtuple with parallel
lists of field names (`_fields`) and slot values. -/
inductive PyVal where
  | pynone : PyVal
  | int : Int → PyVal
  | dict : List (String × PyVal) → PyVal
  | tup : List PyVal → PyVal
  | ntup : List String → List PyVal → PyVal

/-- `isinstance(state, tuple)`: true for plain tuples and namedtuples. -/
def isTuple : PyVal → Bool
  | .tup _ => true
  | .ntup _ _ => true
  | _ => false

/-- `getattr(state, field_name)` on a namedtuple with parallel name/value
lists (namedtuple field names are distinct, so first match suffices). -/
def lookupField : List String → List PyVal → String → PyVal
  | n :: ns, v :: vs, name => if n = name then v else lookupField ns vs name
  | _, _, _ => .pynone

mutual

/-- The recursive body of `extract_field`, called only on tuples: a
namedtuple owning the field returns it, otherwise the slots are scanned in
order. -/
def findField : PyVal → String → PyVal
  | .ntup ns vs, name =>
      if name ∈ ns then lookupField ns vs name else searchVals vs name
  | .tup vs, name => searchVals vs name
  | _, _ => .pynone

/-- The `for element in state` loop: recurse into tuple elements only and
return the first non-`None` result. -/
def searchVals : List PyVal → String → PyVal
  | [], _ => .pynone
  | e :: es, name =>
      if isTuple e then
        match findField e name with
        | .pynone => searchVals es name
        | v => v
      else searchVals es name

end

/-- `extract_field(state, field_name)`: asserts `isinstance(state, tuple)`
and otherwise returns the (possibly `None`) result of the search. -/
def extractField (state : PyVal) (field_name : String) :
    Except String PyVal :=
  if isTuple state then .ok (findField state field_name)
  else .error "assert isinstance(state, tuple)"

mutual

/-- Whether a field of the given name is reachable in the nested-tuple
structure: a namedtuple's own `_fields`, or recursively any element that is
itself a tuple.  Fields hidden inside non-tuple slots (e.g. dicts) do not
count, mirroring the search. -/
def hasFieldNested : PyVal → String → Bool
  | .ntup ns vs, name => name ∈ ns || anyHasField vs name
  | .tup vs, name => anyHasField vs name
  | _, _ => false

/-- `hasFieldNested` over the tuple elements of a slot list. -/
def anyHasField : List PyVal → String → Bool
  | [], _ => false
  | e :: es, name =>
      (isTuple e && hasFieldNested e name) || anyHasField es name

end

/-- One parameter of a Python callable's signature: a name and an optional
default value. -/
structure PyParam (α : Type) where
  name : String
  default : Option α
  deriving Repr

/-- `inspect.Signature.bind(*args, **kwargs)` for positional-or-keyword
parameters: positional arguments fill parameters in order, keyword
arguments bind by name, a parameter both filled positionally and passed by
keyword is an error, an unfilled parameter without default is an error,
leftover positional or keyword arguments are errors.  Parameters left to
their defaults are NOT included in the result (that is `apply_defaults`). -/
def bindArguments {α : Type} :
    List (PyParam α) → List α → List (String × α) →
    Except String (List (String × α))
  | [], [], [] => .ok []
  | [], _ :: _, _ => .error "too many positional arguments"
  | [], [], _ :: _ => .error "got an unexpected keyword argument"
  | p :: ps, v :: vs, kw =>
      if kw.any (fun x => x.1 = p.name) then
        .error "multiple values for argument"
      else (bindArguments ps vs kw).map (fun r => (p.name, v) :: r)
  | p :: ps, [], kw =>
      match kw.find? (fun x => x.1 = p.name) with
      | some x =>
          (bindArguments ps [] (kw.filter (fun y => ¬ y.1 = p.name))).map
            (fun r => (p.name, x.2) :: r)
      | none =>
          match p.default with
          | some _ => bindArguments ps [] kw
          | none => .error "missing a required argument"

/-- `BoundArguments.apply_defaults()`: add `(name, default)` for every
parameter that has a default and is not already bound. -/
def applyDefaults {α : Type} (params : List (PyParam α))
    (bound : List (String × α)) : List (String × α) :=
  bound ++ params.filterMap (fun p =>
    if bound.any (fun x => x.1 = p.name) then none
    else p.default.map (fun d => (p.name, d)))

/-- The argument partition computed inside
`static_inject_hyperparams.wrapped_transform`:
`static_args = set(bound_arguments.arguments.keys()) - injectable_args`,
after `bind` and `apply_defaults`. -/
def staticInjectStaticArgs {α : Type} (params : List (PyParam α))
    (injectable_args : List String) (pos : List α)
    (kw : List (String × α)) : Except String (List String) :=
  (bindArguments params pos kw).map (fun b =>
    ((applyDefaults params b).map Prod.fst).filter
      (fun n => ¬ n ∈ injectable_args))

end OptimizerUtils

open KitchenSink OptimizerUtils

/-- C1 (amended): every counting transform's `init` sets the step counter to
0 and every `update` increments it by exactly 1 while it is below the
maximum int32 value; but only `bias_correction` saturates at the maximum
via `_safe_int32_increment` — the other six transforms use plain int32
addition, which wraps to the minimum int32 value at the maximum. -/
theorem C1_step_counters_amended (c : Int) (h0 : 0 ≤ c) (h1 : c < int32Max) :
    i32add1 c = c + 1 ∧
    _safe_int32_increment c = c + 1 ∧
    _safe_int32_increment int32Max = int32Max ∧
    i32add1 int32Max = int32Min ∧
    bias_correction_init.count = 0 ∧
    (∀ p, (precondition_by_rms_init p).count = 0) ∧
    (∀ iav p, (precondition_by_yogi_init iav p).count = 0) ∧
    (∀ p, (precondition_by_amsgrad_init p).count = 0) ∧
    (∀ p, (scale_by_adam_init p).count = 0) ∧
    (∀ p, (scale_by_nadam_init p).count = 0) ∧
    (∀ d sc dd p,
      (precondition_by_layered_adaptive_rms_init d sc dd p).count = 0) ∧
    (∀ sq rp decay eps er db pw u s,
      (precondition_by_rms_update sq rp decay eps er db pw u s).2.count
        = i32add1 s.count) ∧
    (∀ sq b2 eps er db u s,
      (precondition_by_yogi_update sq b2 eps er db u s).2.count
        = i32add1 s.count) ∧
    (∀ sq b2 eps er u s,
      (precondition_by_amsgrad_update sq b2 eps er u s).2.count
        = i32add1 s.count) ∧
    (∀ sq rp b1 b2 eps er db pw u s,
      (scale_by_adam_update sq rp b1 b2 eps er db pw u s).2.count
        = i32add1 s.count) ∧
    (∀ sq rp b1 b2 eps er db pw u s,
      (scale_by_nadam_update sq rp b1 b2 eps er db pw u s).2.count
        = i32add1 s.count) ∧
    (∀ sq eps er u s,
      (precondition_by_layered_adaptive_rms_update sq eps er u s).2.count
        = i32add1 s.count) ∧
    (∀ decay u s,
      (bias_correction_update decay u s).2.count
        = _safe_int32_increment s.count) := by
  refine ⟨?_, ?_, by decide, by decide, rfl,
    fun _ => rfl, fun _ _ => rfl, fun _ => rfl, fun _ => rfl, fun _ => rfl,
    fun _ _ _ _ => rfl,
    fun _ _ _ _ _ _ _ _ _ => rfl, fun _ _ _ _ _ _ _ => rfl,
    fun _ _ _ _ _ _ => rfl, fun _ _ _ _ _ _ _ _ _ _ => rfl,
    fun _ _ _ _ _ _ _ _ _ _ => rfl, fun _ _ _ _ _ => rfl,
    fun _ _ _ => rfl⟩
  · unfold i32add1 wrap32
    have hlt : c + 1 + 2 ^ 31 < 2 ^ 32 := by
      have : c < 2 ^ 31 - 1 := h1
      omega
    have hge : 0 ≤ c + 1 + 2 ^ 31 := by omega
    rw [Int.emod_eq_of_lt hge hlt]
    ring
  · unfold _safe_int32_increment
    rw [if_pos h1]

/-- Witness for C1: at counter value 5 both increments return 6. -/
theorem C1_step_counters_witness :
    i32add1 5 = 6 ∧ _safe_int32_increment 5 = 6 := by
  have h := C1_step_counters_amended 5 (by decide) (by decide)
  exact ⟨h.1, h.2.1⟩

/-- Counterexample to C1 as stated: `scale_by_adam`'s update at a state whose
counter already holds the maximum int32 value produces the minimum int32
value — the counter wraps instead of saturating. -/
theorem C1_step_counters_counterexample :
    (scale_by_adam_update id (fun x _ => x) (9 / 10) (999 / 1000)
        (1 / 100000000) 0 true (1 / 2) [1]
        { count := int32Max, mu := [0], nu := [0] }).2.count = int32Min ∧
    int32Min ≠ int32Max := by
  exact ⟨by decide, by decide⟩

/-- Summing a list after replacing its last entry. -/
theorem sum_set_last : ∀ (l : List Int) (v : Int), l ≠ [] →
    (l.set (l.length - 1) v).sum = l.sum - l.getLastD 0 + v
  | [a], v, _ => by simp
  | a :: b :: t, v, _ => by
    have ih := sum_set_last (b :: t) v (by simp)
    have hlen : (a :: b :: t).length - 1 = ((b :: t).length - 1) + 1 := by
      simp
    have hlast : ∀ d : Int, (b :: t).getLastD d = t.getLastD b := fun d =>
      List.getLastD_cons d b t
    rw [hlen, List.set_cons_succ, List.sum_cons, ih, List.sum_cons,
      List.getLastD_cons, List.getLastD_cons, hlast]
    simp [List.sum_cons]
    ring

/-- The default value of `getLastD` is irrelevant for a non-empty list: the
result is a member. -/
theorem getLastD_mem_of_ne_nil : ∀ (l : List Int), l ≠ [] →
    l.getLastD 0 ∈ l
  | a :: t, _ => by
    rw [List.getLastD_cons]
    exact List.getLastD_mem_cons t a

/-- Sum of `Int.toNat` over a list of non-negative integers. -/
theorem sum_toNat_of_nonneg : ∀ (l : List Int), (∀ x ∈ l, 0 ≤ x) →
    (l.map Int.toNat).sum = l.sum.toNat
  | [], _ => by simp
  | a :: t, h => by
    have ht : ∀ x ∈ t, 0 ≤ x := fun x hx => h x (List.mem_cons_of_mem a hx)
    have ha : 0 ≤ a := h a (List.mem_cons_self a t)
    rw [List.map_cons, List.sum_cons, List.sum_cons,
      sum_toNat_of_nonneg t ht, Int.toNat_add ha (List.sum_nonneg ht)]

/-- The length of `npRepeat` is the sum of the clamped repeat counts. -/
theorem npRepeat_length (vals : List ℚ) (reps : List Int)
    (h : reps.length ≤ vals.length) :
    (npRepeat vals reps).length = (reps.map Int.toNat).sum := by
  rw [npRepeat, List.length_flatten, List.map_map]
  have hsnd : List.map Prod.snd (vals.zip reps) = reps :=
    List.map_snd_zip vals reps h
  calc (List.map
        (List.length ∘ fun p : ℚ × Int => List.replicate p.2.toNat p.1)
        (vals.zip reps)).sum
      = (List.map (Int.toNat ∘ Prod.snd) (vals.zip reps)).sum := by
        congr 1
        apply List.map_congr_left
        intro p _
        simp [List.length_replicate]
    _ = (reps.map Int.toNat).sum := by
        rw [← List.map_map, hsnd]

/-- C2: for `decays` and a non-negative `decay_distribution` of the same
(positive) length summing to 1, and a positive target length `L`,
`_generate_partition` returns the concatenation, in order, of
`decays[i]` repeated `multiples[i]` times where
`multiples[i] = floor(decay_distribution[i] * L)` with the shortfall
`L - sum(multiples)` added entirely to the last bucket, so the corrected
multiples sum to exactly `L` and the resulting vector has length exactly
`L`. -/
theorem C2_generate_partition (decays decay_distribution : List ℚ) (L : ℕ)
    (hk : decays.length = decay_distribution.length)
    (hne : decay_distribution ≠ []) (hL : 0 < L)
    (hsum : decay_distribution.sum = 1)
    (hnn : ∀ d ∈ decay_distribution, 0 ≤ d) :
    (partition_corrected decay_distribution L).sum = L ∧
    _generate_partition decays decay_distribution L
      = ((decays.zip (partition_corrected decay_distribution L)).map
          (fun p => List.replicate p.2.toNat p.1)).flatten ∧
    (_generate_partition decays decay_distribution L).length = L := by
  set ms := partition_multiples decay_distribution L with hms
  have hms_ne : ms ≠ [] := by
    rw [hms, partition_multiples]
    simpa using hne
  have hms_nonneg : ∀ x ∈ ms, 0 ≤ x := by
    intro x hx
    rw [hms, partition_multiples] at hx
    obtain ⟨d, hd, rfl⟩ := List.mem_map.mp hx
    exact Int.le_floor.mpr (by
      push_cast
      exact mul_nonneg (hnn d hd) (Nat.cast_nonneg L))
  have hms_sum_le : ms.sum ≤ (L : Int) := by
    have hcast : ((ms.sum : Int) : ℚ) ≤ (L : ℚ) := by
      rw [hms, partition_multiples, Int.cast_list_sum, List.map_map]
      calc (List.map (Int.cast ∘ fun d => ⌊d * (L : ℚ)⌋)
            decay_distribution).sum
          ≤ (List.map (fun d => d * (L : ℚ)) decay_distribution).sum := by
            apply List.sum_le_sum
            intro d _
            exact Int.floor_le (d * (L : ℚ))
        _ = decay_distribution.sum * (L : ℚ) := by
            have h := List.sum_map_mul_right decay_distribution
              (fun d => d) (L : ℚ)
            simpa using h
        _ = (L : ℚ) := by rw [hsum, one_mul]
    exact_mod_cast hcast
  have hsum_corr : (partition_corrected decay_distribution L).sum = L := by
    rw [partition_corrected, ← hms]
    rw [sum_set_last ms _ hms_ne]
    ring
  have hcorr_nonneg : ∀ x ∈ partition_corrected decay_distribution L,
      0 ≤ x := by
    intro x hx
    rw [partition_corrected, ← hms] at hx
    rcases List.mem_or_eq_of_mem_set hx with hmem | rfl
    · exact hms_nonneg x hmem
    · have hlast : 0 ≤ ms.getLastD 0 :=
        hms_nonneg _ (getLastD_mem_of_ne_nil ms hms_ne)
      omega
  have hlen_corr : (partition_corrected decay_distribution L).length
      = decays.length := by
    rw [partition_corrected, ← hms, List.length_set, hms,
      partition_multiples, List.length_map, hk]
  refine ⟨hsum_corr, rfl, ?_⟩
  rw [_generate_partition,
    npRepeat_length decays _ (le_of_eq hlen_corr),
    sum_toNat_of_nonneg _ hcorr_nonneg, hsum_corr]
  simp

/-- Witness for C2: the spec's own example, `L = 10`,
`decay_distribution = [0.33, 0.33, 0.34]`: floors give `[3, 3, 3]` and the
shortfall 1 goes to the last bucket, so the partition has length 10. -/
theorem C2_generate_partition_witness :
    (partition_corrected [(33 : ℚ)/100, 33/100, 34/100] 10).sum = 10 ∧
    (_generate_partition [(1 : ℚ)/2, 1/4, 1/8]
        [(33 : ℚ)/100, 33/100, 34/100] 10).length = 10 := by
  have h := C2_generate_partition [(1 : ℚ)/2, 1/4, 1/8]
    [(33 : ℚ)/100, 33/100, 34/100] 10 (by decide) (by decide) (by decide)
    (by norm_num) (by
      intro d hd
      fin_cases hd <;> norm_num)
  exact ⟨h.1, h.2.2⟩

/-- C3: a single `scale_by_adam` step with `b1 = 0.9`, `b2 = 0.999`,
`eps = 1e-8`, `eps_root = 0`, `debias = true`, `power = 0.5` on gradient
`[1.0]` from the freshly initialized state gives `mu = [0.1]`,
`nu = [0.001]`, debiased moments `mu_hat = nu_hat = [1]`, counter 1, and
returned updates `[1 / (sqrt 1 + 1e-8)] = [10^8 / (10^8 + 1)]`. -/
theorem C3_adam_single_step (sq : ℚ → ℚ) (rp : ℚ → ℚ → ℚ)
    (hsq : sq 1 = 1) :
    scale_by_adam_update sq rp (9 / 10) (999 / 1000) (1 / 100000000) 0 true
        (1 / 2) [1] (scale_by_adam_init [0])
      = ([100000000 / 100000001],
         { count := 1, mu := [1 / 10], nu := [1 / 1000] }) ∧
    _bias_correction [1 / 10] (9 / 10) 1 = [1] ∧
    _bias_correction [1 / 1000] (999 / 1000) 1 = [1] := by
  refine ⟨?_, by norm_num [_bias_correction], by norm_num [_bias_correction]⟩
  simp only [scale_by_adam_update, scale_by_adam_init, _update_moment,
    _bias_correction, raise_power, i32add1, wrap32, List.map, List.zipWith,
    if_pos]
  norm_num [hsq]

/-- Witness for C3: the concrete single Adam step with the identity in place
of the external `sqrt` kernel (only its value at 1 matters). -/
theorem C3_adam_single_step_witness :
    scale_by_adam_update id (fun x _ => x) (9 / 10) (999 / 1000)
        (1 / 100000000) 0 true (1 / 2) [1] (scale_by_adam_init [0])
      = ([100000000 / 100000001],
         { count := 1, mu := [1 / 10], nu := [1 / 1000] }) :=
  (C3_adam_single_step id (fun x _ => x) rfl).1

/-- C4: for identical hyperparameters and inputs, `scale_by_nadam`'s update
returns exactly the same new state `(count, mu, nu)` as `scale_by_adam`'s
update, and both returned update lists divide a first-moment numerator by
the same denominator built from `nu_hat`; NAdam's numerator re-applies the
moment update to `mu` (folding the current gradient in) before the optional
bias correction. -/
theorem C4_nadam_vs_adam (sq : ℚ → ℚ) (rp : ℚ → ℚ → ℚ)
    (b1 b2 eps eps_root : ℚ) (debias : Bool) (power : ℚ)
    (updates : List ℚ) (s : ScaleByAdamState) :
    (scale_by_nadam_update sq rp b1 b2 eps eps_root debias power updates s).2
      = (scale_by_adam_update sq rp b1 b2 eps eps_root debias power
          updates s).2 ∧
    (scale_by_adam_update sq rp b1 b2 eps eps_root debias power updates s).1
      = List.zipWith
          (fun m v => m / (raise_power sq rp power (v + eps_root) + eps))
          (if debias then
            _bias_correction (_update_moment updates s.mu b1 1) b1
              (i32add1 s.count)
          else _update_moment updates s.mu b1 1)
          (if debias then
            _bias_correction (_update_moment updates s.nu b2 2) b2
              (i32add1 s.count)
          else _update_moment updates s.nu b2 2) ∧
    (scale_by_nadam_update sq rp b1 b2 eps eps_root debias power updates s).1
      = List.zipWith
          (fun m v => m / (raise_power sq rp power (v + eps_root) + eps))
          (if debias then
            _bias_correction
              (_update_moment updates (_update_moment updates s.mu b1 1) b1 1)
              b1 (i32add1 s.count)
          else _update_moment updates (_update_moment updates s.mu b1 1) b1 1)
          (if debias then
            _bias_correction (_update_moment updates s.nu b2 2) b2
              (i32add1 s.count)
          else _update_moment updates s.nu b2 2) :=
  ⟨rfl, rfl, rfl⟩

/-- C5: in `precondition_by_layered_adaptive_rms`, `beta_array` and
`scale_array` are computed by `init` from the partition scheme and the
parameter leaf, and every `update` returns them unchanged while only
`count` and `nu` change (by their update formulas). -/
theorem C5_layered_rms_frame (sq : ℚ → ℚ) (decays scales dist : List ℚ)
    (eps eps_root : ℚ) (params updates : List ℚ)
    (s : PreconditionByLayeredAdaptiveRMSState) :
    (precondition_by_layered_adaptive_rms_init decays scales dist
        params).beta_array = _generate_partition decays dist params.length ∧
    (precondition_by_layered_adaptive_rms_init decays scales dist
        params).scale_array = _generate_partition scales dist params.length ∧
    (precondition_by_layered_adaptive_rms_init decays scales dist
        params).count = 0 ∧
    (precondition_by_layered_adaptive_rms_update sq eps eps_root updates
        s).2.beta_array = s.beta_array ∧
    (precondition_by_layered_adaptive_rms_update sq eps eps_root updates
        s).2.scale_array = s.scale_array ∧
    (precondition_by_layered_adaptive_rms_update sq eps eps_root updates
        s).2.count = i32add1 s.count ∧
    (precondition_by_layered_adaptive_rms_update sq eps eps_root updates
        s).2.nu = zipWith3 (fun g t b => _update_moment_general g t b 2)
          updates s.nu s.beta_array :=
  ⟨rfl, rfl, rfl, rfl, rfl, rfl, rfl⟩

/-- C6: `_clip_update` divides the update by `max(1, rms/threshold)` where
the rms is sanitized first, so the divisor is always at least 1; and
whenever the rms of the input is at most the (positive) threshold, the
output equals the input exactly. -/
theorem C6_clip_update (sq : ℚ → ℚ) (update : List ℚ) (clip_threshold : ℚ)
    (ht : 0 < clip_threshold) :
    1 ≤ max 1 (_sanitize_values (.fin (_reduce_rms sq update)) 1
        / clip_threshold) ∧
    _clip_update sq update clip_threshold
      = update.map (fun x =>
          x / max 1 (_reduce_rms sq update / clip_threshold)) ∧
    (_reduce_rms sq update ≤ clip_threshold →
      _clip_update sq update clip_threshold = update) := by
  refine ⟨le_max_left _ _, rfl, fun h => ?_⟩
  have h1 : _reduce_rms sq update / clip_threshold ≤ 1 :=
    (div_le_one ht).mpr h
  have h2 : max 1 (_reduce_rms sq update / clip_threshold) = 1 :=
    max_eq_left h1
  simp only [_clip_update, _sanitize_values]
  rw [h2]
  simp

/-- Witness for C6: clipping `[1/2]` with threshold 1 (rms below the
threshold) returns the input unchanged. -/
theorem C6_clip_update_witness :
    _clip_update id [(1 : ℚ) / 2] 1 = [(1 : ℚ) / 2] := by
  have h := C6_clip_update id [(1 : ℚ) / 2] 1 (by norm_num)
  exact h.2.2 (by norm_num [_reduce_rms, _reduce_mean])

/-- C7: `add_decayed_weights`' update errors exactly when `params` is
`None` (with the missing-argument message), and otherwise returns each leaf
replaced by `g + m * learning_rate * weight_decay * p` with `m = -1` when
`flip_sign`, keeping the empty state unchanged. -/
theorem C7_add_decayed_weights (weight_decay learning_rate : ℚ)
    (flip_sign : Bool) (updates p : List ℚ) (st : Unit)
    (hcong : updates.length = p.length) :
    add_decayed_weights_update weight_decay learning_rate flip_sign updates
        st none = .error NO_PARAMS_MSG ∧
    (∀ po : Option (List ℚ),
      (∃ e, add_decayed_weights_update weight_decay learning_rate flip_sign
          updates st po = .error e) ↔ po = none) ∧
    add_decayed_weights_update weight_decay learning_rate flip_sign updates
        st (some p)
      = .ok (List.zipWith
          (fun g pv =>
            g + (if flip_sign then (-1 : ℚ) else 1) * learning_rate
              * weight_decay * pv) updates p, st) := by
  refine ⟨rfl, fun po => ?_, rfl⟩
  cases po with
  | none => exact ⟨fun _ => rfl, fun _ => ⟨NO_PARAMS_MSG, rfl⟩⟩
  | some q =>
      constructor
      · rintro ⟨e, he⟩
        simp [add_decayed_weights_update] at he
      · intro h
        simp at h

/-- Witness for C7: with congruent one-leaf trees, omitting `params` errors
and supplying them adds the decayed weights. -/
theorem C7_add_decayed_weights_witness :
    add_decayed_weights_update 1 1 false [(1 : ℚ)] () none
      = .error NO_PARAMS_MSG :=
  (C7_add_decayed_weights 1 1 false [(1 : ℚ)] [(2 : ℚ)] () rfl).1

/-- If no field of the given name is reachable in the nested-tuple
structure, the recursive search comes back empty-handed. -/
theorem findField_of_no_field (s : PyVal) (name : String)
    (h : hasFieldNested s name = false) : findField s name = .pynone := by
  refine findField.induct
    (fun s name => hasFieldNested s name = false → findField s name = .pynone)
    (fun vs name => anyHasField vs name = false → searchVals vs name = .pynone)
    ?_ ?_ ?_ ?_ ?_ ?_ ?_ ?_ s name h
  · intro ns vs name hmem hfalse
    rw [hasFieldNested] at hfalse
    simp at hfalse
    exact absurd hmem hfalse.1
  · intro ns vs name hnmem ih hfalse
    rw [hasFieldNested] at hfalse
    simp at hfalse
    rw [findField, if_neg hnmem]
    exact ih hfalse.2
  · intro vs name ih hfalse
    rw [hasFieldNested] at hfalse
    rw [findField]
    exact ih hfalse
  · intro t x hnt htp _
    cases t with
    | pynone => rfl
    | int n => rfl
    | dict d => rfl
    | tup vs => exact (htp vs rfl).elim
    | ntup ns vs => exact (hnt ns vs rfl).elim
  · intro x _
    rfl
  · intro e es name htup hff _ ih hfalse
    rw [anyHasField] at hfalse
    simp [htup] at hfalse
    rw [searchVals, if_pos htup, hff]
    exact ih hfalse.2
  · intro e es name htup hffne ih hfalse
    rw [anyHasField] at hfalse
    simp [htup] at hfalse
    exact (hffne (ih hfalse.1)).elim
  · intro e es name hnt ih hfalse
    rw [anyHasField] at hfalse
    simp [hnt] at hfalse
    rw [searchVals, if_neg (by simp [hnt])]
    exact ih hfalse

/-- C8: `extract_field` returns the top-level named field when the
namedtuple has one, otherwise recurses depth-first in slot order into
tuple elements returning the first non-`None` match, and returns `None`
when no field of the name exists anywhere in the nested-tuple structure;
with the two concrete examples from the spec. -/
theorem C8_extract_field_dfs (ns : List String) (vs elems : List PyVal)
    (s : PyVal) (name : String) (hmem : name ∈ ns)
    (hs : isTuple s = true) (hnf : hasFieldNested s name = false) :
    extractField (.ntup ns vs) name = .ok (lookupField ns vs name) ∧
    extractField (.tup elems) name = .ok (searchVals elems name) ∧
    (∀ (e : PyVal) (es : List PyVal) (nm : String), isTuple e = true →
      searchVals (e :: es) nm
        = match findField e nm with
          | .pynone => searchVals es nm
          | v => v) ∧
    extractField s name = .ok .pynone ∧
    extractField (.ntup ["x", "z"] [.ntup ["y"] [.int 5], .int 3]) "y"
      = .ok (.int 5) ∧
    extractField (.ntup ["x", "z"] [.ntup ["y"] [.int 5], .int 3])
      "nonexistent" = .ok .pynone := by
  refine ⟨?_, rfl, ?_, ?_, rfl, rfl⟩
  · rw [extractField]
    simp only [isTuple, if_pos]
    rw [findField, if_pos hmem]
  · intro e es nm h
    rw [searchVals, if_pos h]
  · rw [extractField, if_pos (by simp [hs]),
      findField_of_no_field s name hnf]

/-- Witness for C8: a top-level match, and the empty plain tuple holds no
field named "y", so the search returns `None`. -/
theorem C8_extract_field_dfs_witness :
    extractField (.tup []) "y" = .ok .pynone :=
  (C8_extract_field_dfs ["y"] [.int 5] [] (.tup []) "y" (by simp) rfl
    rfl).2.2.2.1

/-- Every argument name bound by a successful `bind` is one of the
signature's parameter names. -/
theorem bindArguments_keys {α : Type} (params : List (PyParam α))
    (pos : List α) (kw : List (String × α)) :
    ∀ b, bindArguments params pos kw = .ok b →
      ∀ x ∈ b, x.1 ∈ params.map PyParam.name := by
  induction params, pos, kw using bindArguments.induct with
  | case1 =>
      intro b hb x hx
      simp only [bindArguments] at hb
      cases hb
      simp at hx
  | case2 h t kw =>
      intro b hb
      simp only [bindArguments] at hb
      exact absurd hb (by simp)
  | case3 h t =>
      intro b hb
      simp only [bindArguments] at hb
      exact absurd hb (by simp)
  | case4 p ps v vs kw hany =>
      intro b hb
      simp only [bindArguments, if_pos hany] at hb
      exact absurd hb (by simp)
  | case5 p ps v vs kw hany ih =>
      intro b hb x hx
      simp only [bindArguments, if_neg hany] at hb
      cases e : bindArguments ps vs kw with
      | error err => rw [e] at hb; exact absurd hb (by simp [Except.map])
      | ok r =>
          rw [e] at hb
          simp only [Except.map, Except.ok.injEq] at hb
          subst hb
          rcases List.mem_cons.mp hx with rfl | hx'
          · simp
          · simp only [List.map_cons, List.mem_cons]
            exact Or.inr (ih r e x hx')
  | case6 p ps kw xf hfind ih =>
      intro b hb x hx
      simp only [bindArguments, hfind] at hb
      cases e : bindArguments ps []
          (kw.filter (fun y => ¬ y.1 = p.name)) with
      | error err => rw [e] at hb; exact absurd hb (by simp [Except.map])
      | ok r =>
          rw [e] at hb
          simp only [Except.map, Except.ok.injEq] at hb
          subst hb
          rcases List.mem_cons.mp hx with rfl | hx'
          · simp
          · simp only [List.map_cons, List.mem_cons]
            exact Or.inr (ih r e x hx')
  | case7 p ps kw hfind val hdef ih =>
      intro b hb x hx
      simp only [bindArguments, hfind, hdef] at hb
      simp only [List.map_cons, List.mem_cons]
      exact Or.inr (ih b hb x hx)
  | case8 p ps kw hfind hdef =>
      intro b hb
      simp only [bindArguments, hfind, hdef] at hb
      exact absurd hb (by simp)

/-- After a successful `bind`, every parameter is either bound or has a
default value. -/
theorem bindArguments_covers {α : Type} (params : List (PyParam α))
    (pos : List α) (kw : List (String × α)) :
    ∀ b, bindArguments params pos kw = .ok b →
      ∀ p ∈ params,
        b.any (fun x => x.1 = p.name) = true ∨ p.default.isSome = true := by
  induction params, pos, kw using bindArguments.induct with
  | case1 =>
      intro b hb p hp
      simp at hp
  | case2 h t kw =>
      intro b hb
      simp only [bindArguments] at hb
      exact absurd hb (by simp)
  | case3 h t =>
      intro b hb
      simp only [bindArguments] at hb
      exact absurd hb (by simp)
  | case4 p ps v vs kw hany =>
      intro b hb
      simp only [bindArguments, if_pos hany] at hb
      exact absurd hb (by simp)
  | case5 p ps v vs kw hany ih =>
      intro b hb q hq
      simp only [bindArguments, if_neg hany] at hb
      cases e : bindArguments ps vs kw with
      | error err => rw [e] at hb; exact absurd hb (by simp [Except.map])
      | ok r =>
          rw [e] at hb
          simp only [Except.map, Except.ok.injEq] at hb
          subst hb
          rcases List.mem_cons.mp hq with rfl | hq'
          · left; simp
          · rcases ih r e q hq' with hr | hd
            · left
              simp only [List.any_cons, Bool.or_eq_true]
              exact Or.inr hr
            · exact Or.inr hd
  | case6 p ps kw xf hfind ih =>
      intro b hb q hq
      simp only [bindArguments, hfind] at hb
      cases e : bindArguments ps []
          (kw.filter (fun y => ¬ y.1 = p.name)) with
      | error err => rw [e] at hb; exact absurd hb (by simp [Except.map])
      | ok r =>
          rw [e] at hb
          simp only [Except.map, Except.ok.injEq] at hb
          subst hb
          rcases List.mem_cons.mp hq with rfl | hq'
          · left; simp
          · rcases ih r e q hq' with hr | hd
            · left
              simp only [List.any_cons, Bool.or_eq_true]
              exact Or.inr hr
            · exact Or.inr hd
  | case7 p ps kw hfind val hdef ih =>
      intro b hb q hq
      simp only [bindArguments, hfind, hdef] at hb
      rcases List.mem_cons.mp hq with rfl | hq'
      · right; rw [hdef]; rfl
      · exact ih b hb q hq'
  | case8 p ps kw hfind hdef =>
      intro b hb
      simp only [bindArguments, hfind, hdef] at hb
      exact absurd hb (by simp)

/-- C9: in `static_inject_hyperparams`' wrapped constructor, defaults are
bound before partitioning, and the static-argument set is exactly the
factory's full parameter set (after applying defaults) minus
`injectable_args`; every parameter not listed as injectable — including
optional parameters not explicitly passed — is static. -/
theorem C9_static_inject_partition {α : Type} (params : List (PyParam α))
    (injectable_args : List String) (pos : List α)
    (kw : List (String × α)) (b : List (String × α))
    (hb : bindArguments params pos kw = .ok b) (n : String) :
    staticInjectStaticArgs params injectable_args pos kw
      = .ok (((applyDefaults params b).map Prod.fst).filter
          (fun m => ¬ m ∈ injectable_args)) ∧
    (n ∈ (applyDefaults params b).map Prod.fst
      ↔ n ∈ params.map PyParam.name) ∧
    (n ∈ ((applyDefaults params b).map Prod.fst).filter
        (fun m => ¬ m ∈ injectable_args)
      ↔ (n ∈ params.map PyParam.name ∧ ¬ n ∈ injectable_args)) := by
  have hkeys : n ∈ (applyDefaults params b).map Prod.fst
      ↔ n ∈ params.map PyParam.name := by
    constructor
    · intro h
      rw [applyDefaults, List.map_append, List.mem_append] at h
      rcases h with h | h
      · obtain ⟨x, hx, rfl⟩ := List.mem_map.mp h
        exact bindArguments_keys params pos kw b hb x hx
      · obtain ⟨y, hy, rfl⟩ := List.mem_map.mp h
        obtain ⟨p, hp, hfy⟩ := List.mem_filterMap.mp hy
        by_cases hc : b.any (fun x => x.1 = p.name) = true
        · simp [hc] at hfy
        · simp only [hc, if_neg, Bool.false_eq_true, not_false_iff,
            if_false] at hfy
          obtain ⟨d, _, rfl⟩ := Option.map_eq_some'.mp hfy
          exact List.mem_map.mpr ⟨p, hp, rfl⟩
    · intro h
      obtain ⟨p, hp, rfl⟩ := List.mem_map.mp h
      rw [applyDefaults, List.map_append, List.mem_append]
      by_cases hc : b.any (fun x => x.1 = p.name) = true
      · left
        obtain ⟨x, hx, he⟩ := List.any_eq_true.mp hc
        exact List.mem_map.mpr ⟨x, hx, by simpa using he⟩
      · right
        rcases bindArguments_covers params pos kw b hb p hp with h1 | h2
        · exact absurd h1 hc
        · obtain ⟨d, hd⟩ := Option.isSome_iff_exists.mp h2
          refine List.mem_map.mpr ⟨(p.name, d), ?_, rfl⟩
          refine List.mem_filterMap.mpr ⟨p, hp, ?_⟩
          simp [hc, hd]
  refine ⟨?_, hkeys, ?_⟩
  · rw [staticInjectStaticArgs, hb]
    rfl
  · rw [List.mem_filter, hkeys]
    simp

/-- Witness for C9: the spec's example — a factory with defaulted
`learning_rate` and `momentum` parameters, with only `learning_rate`
injectable, called with both as keywords: `momentum` is classified static
and `learning_rate` is not. -/
theorem C9_static_inject_partition_witness :
    staticInjectStaticArgs (α := ℚ)
        [⟨"learning_rate", some 0⟩, ⟨"momentum", some (9/10)⟩]
        ["learning_rate"] [] [("learning_rate", 1), ("momentum", 1/2)]
      = .ok (((applyDefaults (α := ℚ)
          [⟨"learning_rate", some 0⟩, ⟨"momentum", some (9/10)⟩]
          [("learning_rate", 1), ("momentum", 1/2)]).map Prod.fst).filter
            (fun m => ¬ m ∈ ["learning_rate"])) ∧
    ("momentum"
        ∈ ((applyDefaults (α := ℚ)
            [⟨"learning_rate", some 0⟩, ⟨"momentum", some (9/10)⟩]
            [("learning_rate", 1), ("momentum", 1/2)]).map Prod.fst).filter
              (fun m => ¬ m ∈ ["learning_rate"])
      ↔ True) := by
  have h := C9_static_inject_partition (α := ℚ)
    [⟨"learning_rate", some 0⟩, ⟨"momentum", some (9/10)⟩]
    ["learning_rate"] [] [("learning_rate", 1), ("momentum", 1/2)]
    [("learning_rate", 1), ("momentum", 1/2)] (by rfl) "momentum"
  refine ⟨h.1, ?_⟩
  rw [h.2.2]
  simp

/-- C10: `extract_field` fails its `isinstance(state, tuple)` assertion on
every non-tuple argument, and the recursive search skips non-tuple slots,
so a matching field stored inside a non-tuple slot (here a dict) is never
found. -/
theorem C10_extract_field_requires_tuple (s e : PyVal) (es : List PyVal)
    (name : String) (hs : isTuple s = false) (he : isTuple e = false) :
    extractField s name = .error "assert isinstance(state, tuple)" ∧
    searchVals (e :: es) name = searchVals es name ∧
    extractField (.ntup ["s"] [.dict [("k", .ntup ["y"] [.int 5])]]) "y"
      = .ok .pynone := by
  refine ⟨?_, ?_, rfl⟩
  · unfold extractField
    rw [hs]
    rfl
  · conv_lhs => rw [searchVals.eq_def]
    simp [he]

/-- Witness for C10: a plain int (non-tuple) triggers the assertion error,
with a dict element being skipped during the search. -/
theorem C10_extract_field_requires_tuple_witness :
    extractField (.int 0) "nu" = .error "assert isinstance(state, tuple)" :=
  (C10_extract_field_requires_tuple (.int 0) (.dict []) [] "nu" rfl rfl).1
